import Mathlib

/-!
logingestor: query construction, ingest loop and search handler.

A shallow embedding of `controllers/elastic.go`.

* JSON documents are values of `JVal`.
* The gin request context is reduced to what the handlers read from it: the
  URL query parameters (`Context`).
* Everything the handlers obtain from outside the repository (client
  construction, body binding, `json.Marshal`, the identifier generator, the
  engine's answers, `json.Unmarshal`) is a field of an environment record, so
  every theorem holds for every behaviour of those collaborators.
* A handler returns the list of its `c.JSON` calls together with the list of
  calls it made on the engine. The body of a `c.JSON` call is the JSON encoding
  of the value handed over, which does not exist for every value: a
  `time.Time` can decode from JSON and still be refused by the encoder.
-/

set_option autoImplicit false
set_option linter.dupNamespace false

namespace LogIngestor

/-! ## JSON documents -/

/-- JSON values. Numbers keep their literal text; objects keep their members in
the order in which they are written out. -/
inductive JVal where
  | null
  | bool (b : Bool)
  | num (lit : String)
  | str (s : String)
  | arr (items : List JVal)
  | obj (members : List (String × JVal))

namespace JVal

/-- Value stored under `key` in an object (first member with that key). -/
def member (key : String) : JVal → Option JVal
  | obj members => (members.find? (fun kv => kv.1 == key)).map (fun kv => kv.2)
  | _ => none

/-- Keys of an object, in order; no keys for any other value. -/
def keys : JVal → List String
  | obj members => members.map (fun kv => kv.1)
  | _ => []

/-- Items of an array. -/
def items? : JVal → Option (List JVal)
  | arr xs => some xs
  | _ => none

/-- Whether a document is a JSON array. -/
def isArray : JVal → Bool
  | arr _ => true
  | _ => false

/-- Whether a document is the JSON value `null`. -/
def isNull : JVal → Bool
  | null => true
  | _ => false

end JVal

/-! ## Request context -/

/-- The part of `*gin.Context` read by `buildQuery`: the URL query parameters
as (name, value) pairs in the order they appear in the URL. -/
structure Context where
  queryParams : List (String × String)

/-- Model of `c.Query(key)`: the first value supplied for `key`, or the empty string
when the key is absent. -/
def Context.Query (c : Context) (key : String) : String :=
  match c.queryParams.find? (fun kv => kv.1 == key) with
  | some kv => kv.2
  | none => ""

/-! ## buildQuery -/

/-- The `must` list assembled by `buildQuery`, one conditional append per block
of the source, in source order. -/
def mustClauses (c : Context) : List JVal :=
  let mustClauses : List JVal := []
  let level := c.Query "level"
  let mustClauses :=
    if level ≠ "" then
      mustClauses ++ [JVal.obj [("match", JVal.obj [("level", JVal.str level)])]]
    else mustClauses
  let resourceId := c.Query "resourceId"
  let mustClauses :=
    if resourceId ≠ "" then
      mustClauses ++ [JVal.obj [("match", JVal.obj [("resourceId", JVal.str resourceId)])]]
    else mustClauses
  let traceId := c.Query "traceId"
  let mustClauses :=
    if traceId ≠ "" then
      mustClauses ++ [JVal.obj [("match", JVal.obj [("traceId", JVal.str traceId)])]]
    else mustClauses
  let spanId := c.Query "spanId"
  let mustClauses :=
    if spanId ≠ "" then
      mustClauses ++ [JVal.obj [("match", JVal.obj [("spanId", JVal.str spanId)])]]
    else mustClauses
  let commit := c.Query "commit"
  let mustClauses :=
    if commit ≠ "" then
      mustClauses ++ [JVal.obj [("match", JVal.obj [("spanId", JVal.str commit)])]]
    else mustClauses
  let message := c.Query "message"
  let mustClauses :=
    if message ≠ "" then
      mustClauses ++ [JVal.obj [("match", JVal.obj [("message", JVal.str message)])]]
    else mustClauses
  let startDate := c.Query "startDate"
  let endDate := c.Query "endDate"
  let mustClauses :=
    if startDate ≠ "" ∧ endDate ≠ "" then
      mustClauses ++
        [JVal.obj [("range", JVal.obj [("timestamp",
          JVal.obj [("gte", JVal.str startDate), ("lte", JVal.str endDate)])])]]
    else mustClauses
  mustClauses

/-- Model of `buildQuery`: the clause list wrapped as `query.bool.must`. -/
def buildQuery (c : Context) : JVal :=
  JVal.obj [("query", JVal.obj [("bool", JVal.obj [("must", JVal.arr (mustClauses c))])])]

/-! ## Reading a query document back -/

/-- The list stored at `query.bool.must` of a document, when there is one. -/
def mustOf (doc : JVal) : Option (List JVal) :=
  ((doc.member "query").bind (JVal.member "bool")).bind
    (fun b => (b.member "must").bind JVal.items?)

/-- Field and value of an equality clause `{"match": {field: value}}`. -/
def matchParts : JVal → Option (String × String)
  | JVal.obj [(k, JVal.obj [(field, JVal.str value)])] =>
      if k = "match" then some (field, value) else none
  | _ => none

/-- Field of a range clause `{"range": {field: {...}}}`. -/
def rangeField : JVal → Option String
  | JVal.obj [(k, JVal.obj [(field, JVal.obj _)])] =>
      if k = "range" then some field else none
  | _ => none

/-- Recogniser of equality clauses. -/
def isMatchClause (cl : JVal) : Bool := (matchParts cl).isSome

/-- Recogniser of range clauses. -/
def isRangeClause (cl : JVal) : Bool := (rangeField cl).isSome

/-- Recogniser of equality clauses on one given field. -/
def isMatchOn (field : String) (cl : JVal) : Bool :=
  match matchParts cl with
  | some (f, _) => f == field
  | none => false

/-- The field a clause constrains, whichever kind of clause it is. -/
def clauseField (cl : JVal) : Option String :=
  match matchParts cl with
  | some (f, _) => some f
  | none => rangeField cl

/-- The six parameters that `buildQuery` turns into equality clauses, in source order. -/
def matchParams : List String :=
  ["level", "resourceId", "traceId", "spanId", "commit", "message"]

/-- All eight parameters read by `buildQuery`. -/
def queryParamNames : List String :=
  ["level", "resourceId", "traceId", "spanId", "commit", "message", "startDate", "endDate"]

/-! ## Data model -/

/-- Model of `time.Time` as used by `LogData`: a value is identified by the result of its
`MarshalJSON` method, which is the RFC 3339 text of the value, or `none` when the method returns
an error (a year outside 0..9999 or a zone offset hour outside 0..23; the decoder accepts some
such values, for instance a zone offset of `+24:00`). -/
structure Time where
  marshalJSON : Option String

/-- Model of the `LogData` struct. `Metadata` is `none` for a nil map; its entries are
kept in key order, the order in which the JSON encoder writes them. -/
structure LogData where
  Level : String
  Message : String
  ResourceId : String
  Timestamp : Time
  TraceId : String
  SpanId : String
  Commit : String
  Metadata : Option (List (String × String))

/-- Model of the `Hit` struct. -/
structure Hit where
  Source : LogData

/-- Model of the `Hits` struct; `none` is the nil slice. -/
structure Hits where
  Hits : Option (List Hit)

/-- Model of the `Response` struct. -/
structure Response where
  Hits : LogIngestor.Hits

/-- JSON encoding of a `LogData` value under its struct tags; `none` when the encoder returns
an error, which happens exactly when the timestamp cannot be encoded. -/
def encodeLogData (d : LogData) : Option JVal :=
  match d.Timestamp.marshalJSON with
  | none => none
  | some timestamp =>
    some (JVal.obj
      [("level", JVal.str d.Level),
       ("message", JVal.str d.Message),
       ("resourceId", JVal.str d.ResourceId),
       ("timestamp", JVal.str timestamp),
       ("traceId", JVal.str d.TraceId),
       ("spanId", JVal.str d.SpanId),
       ("commit", JVal.str d.Commit),
       ("metadata",
          match d.Metadata with
          | none => JVal.null
          | some m => JVal.obj (m.map (fun kv => (kv.1, JVal.str kv.2))))])

/-- JSON encoding of a `Hit` value under its struct tag. -/
def encodeHit (h : Hit) : Option JVal :=
  match encodeLogData h.Source with
  | none => none
  | some source => some (JVal.obj [("_source", source)])

/-- JSON encodings of the hits of a list, in order; `none` as soon as one hit cannot be
encoded. -/
def encodeHitList : List Hit → Option (List JVal)
  | [] => some []
  | h :: rest =>
    match encodeHit h with
    | none => none
    | some x =>
      match encodeHitList rest with
      | none => none
      | some xs => some (x :: xs)

/-- JSON encoding of a `Hits` value under its struct tag; a nil slice is written `null`. -/
def encodeHits (hs : Hits) : Option JVal :=
  match hs.Hits with
  | none => some (JVal.obj [("hits", JVal.null)])
  | some l =>
    match encodeHitList l with
    | none => none
    | some xs => some (JVal.obj [("hits", JVal.arr xs)])

/-- JSON encoding of a `Response` value under its struct tag. -/
def encodeResponse (r : Response) : Option JVal :=
  match encodeHits r.Hits with
  | none => none
  | some hits => some (JVal.obj [("hits", hits)])

/-! ## Handler results -/

/-- Model of `esapi.IndexRequest` as filled in by `LogIngestHandler`. -/
structure IndexRequest where
  Index : String
  DocumentID : String
  Body : String
  deriving DecidableEq

/-- A call made on the engine through the client. -/
inductive EngineCall where
  | index (req : IndexRequest)
  | search (index : String) (body : String) (trackTotalHits : Bool) (pretty : Bool)
  deriving DecidableEq

/-- Document identifier of an index call. -/
def EngineCall.documentID? : EngineCall → Option String
  | EngineCall.index req => some req.DocumentID
  | EngineCall.search _ _ _ _ => none

/-- One `c.JSON(status, value)` call: the status, and as `body` the JSON encoding of the value,
`none` when the value cannot be encoded (no body is written then). -/
structure Reply where
  status : Nat
  body : Option JVal

/-- What a handler did: the responses it wrote, and the calls it made on the engine,
both in order. -/
structure Outcome where
  replies : List Reply
  calls : List EngineCall

/-- Encoding of `gin.H{"error": msg}`. -/
def errorBody (msg : String) : JVal :=
  JVal.obj [("error", JVal.str msg)]

/-! ## LogIngestHandler -/

/-- Result of `req.Do(ctx, esClient)`: a transport error, or a response whose
`IsError()` is the given flag. -/
inductive DoResult where
  | transportError
  | response (isError : Bool)

/-- Everything `LogIngestHandler` obtains from outside the repository.
* `getClient`: whether `config.GetElasticsearchClient()` returns a client;
* `bindJSON`: result of `c.BindJSON(&logsData)`, the error text or the parsed records;
* `marshal`: result of `json.Marshal(logData)`;
* `newUUID n`: the text of the identifier returned by the call number `n` (from 0) of
  `uuid.New()` in this request;
* `indexDo n req`: result of the index call number `n` (from 0) of this request. -/
structure IngestEnv where
  getClient : Bool
  bindJSON : Except String (List LogData)
  marshal : LogData → Option String
  newUUID : Nat → String
  indexDo : Nat → IndexRequest → DoResult

/-- The `for` loop of `LogIngestHandler`. `n` counts the records handled so far and
`calls` collects the engine calls made so far. Returns the response of an early
`return`, if any, and the engine calls made. -/
def ingestLoop (env : IngestEnv) :
    List LogData → Nat → List EngineCall → Option Reply × List EngineCall
  | [], _, calls => (none, calls)
  | logData :: rest, n, calls =>
    match env.marshal logData with
    | none => (some ⟨500, some (errorBody "Error marshaling log data")⟩, calls)
    | some jsonData =>
      let documentID := env.newUUID n
      let req : IndexRequest := ⟨"logs", documentID, jsonData⟩
      match env.indexDo n req with
      | DoResult.transportError =>
        (some ⟨500, some (errorBody "Failed to send request to Elasticsearch")⟩,
          calls ++ [EngineCall.index req])
      | DoResult.response true =>
        (some ⟨500, some (errorBody ("Failed to index document with ID=" ++ documentID))⟩,
          calls ++ [EngineCall.index req])
      | DoResult.response false =>
        ingestLoop env rest (n + 1) (calls ++ [EngineCall.index req])

/-- Model of `LogIngestHandler`. -/
def LogIngestHandler (env : IngestEnv) : Outcome :=
  if env.getClient = false then
    ⟨[⟨500, some (errorBody "Failed to initialize Elasticsearch client")⟩], []⟩
  else
    match env.bindJSON with
    | Except.error msg => ⟨[⟨400, some (errorBody msg)⟩], []⟩
    | Except.ok logsData =>
      match ingestLoop env logsData 0 [] with
      | (some reply, calls) => ⟨[reply], calls⟩
      | (none, calls) =>
        ⟨[⟨200, some (JVal.obj [("message", JVal.str "Log ingested successfully")])⟩], calls⟩

/-- How the handling of one record ends. -/
inductive WriteResult where
  | ok
  | serializationError
  | transportError
  | errorResponse
  deriving DecidableEq

/-- How the handling of record `d` ends when it is the record number `n` (from 0) of
the request: serialization may fail, the transport may fail, the engine may answer with
an error, or the write succeeds. -/
def writeResult (env : IngestEnv) (n : Nat) (d : LogData) : WriteResult :=
  match env.marshal d with
  | none => WriteResult.serializationError
  | some jsonData =>
    match env.indexDo n ⟨"logs", env.newUUID n, jsonData⟩ with
    | DoResult.transportError => WriteResult.transportError
    | DoResult.response true => WriteResult.errorResponse
    | DoResult.response false => WriteResult.ok

/-- The index calls for the records of a list, the first record being number `n`: one
call per record that serializes, none for a record that does not. -/
def writesFrom (env : IngestEnv) : Nat → List LogData → List EngineCall
  | _, [] => []
  | n, d :: rest =>
    (match env.marshal d with
      | none => []
      | some jsonData => [EngineCall.index ⟨"logs", env.newUUID n, jsonData⟩]) ++
      writesFrom env (n + 1) rest

/-- Model of `c.BindJSON(&logsData)` for a request body whose text is the JSON document `d`,
by the rules of the JSON decoder for a slice target: `null` leaves `logsData` nil and is no
error; an array is decoded element by element, `decodeRecord` being the decoding of one element
into `LogData`; any other document is a type error, with text `typeError`. -/
def bindDocument (decodeRecord : JVal → Except String LogData) (typeError : String) :
    JVal → Except String (List LogData)
  | JVal.null => Except.ok []
  | JVal.arr items => items.mapM decodeRecord
  | _ => Except.error typeError

/-! ## SearchLogsHandler -/

/-- The body of an engine response once read: the JSON document it holds, or text
that is not JSON. -/
inductive Body where
  | doc (d : JVal)
  | malformed

/-- Model of `*esapi.Response` as far as `SearchLogsHandler` uses it: the result of
`io.ReadAll(res.Body)`, `none` when reading fails. -/
structure EsResponse where
  readAll : Option Body

/-- Result of `esClient.Search(...)`. -/
inductive SearchResult where
  | transportError
  | response (res : EsResponse)

/-- Everything `SearchLogsHandler` obtains from outside the repository.
* `getClient`: whether `config.GetElasticsearchClient()` returns a client;
* `encodeQuery`: result of encoding the query document into the request buffer;
* `search index body`: result of the search call;
* `unmarshal`: result of `json.Unmarshal` of a JSON document into `Response`. -/
structure SearchEnv where
  getClient : Bool
  encodeQuery : JVal → Option String
  search : String → String → SearchResult
  unmarshal : JVal → Option Response

/-- Model of `json.Unmarshal(body, &respi)`: text that is not JSON is an error. -/
def unmarshalBody (env : SearchEnv) : Body → Option Response
  | Body.malformed => none
  | Body.doc d => env.unmarshal d

/-- Model of `searchInElasticsearch`: the response, or `none` for an error, with the
engine calls made. -/
def searchInElasticsearch (env : SearchEnv) (query : JVal) :
    Option EsResponse × List EngineCall :=
  if env.getClient = false then (none, [])
  else
    match env.encodeQuery query with
    | none => (none, [])
    | some buf =>
      match env.search "logs" buf with
      | SearchResult.transportError => (none, [EngineCall.search "logs" buf true true])
      | SearchResult.response res => (some res, [EngineCall.search "logs" buf true true])

/-- Model of `SearchLogsHandler`. -/
def SearchLogsHandler (env : SearchEnv) (c : Context) : Outcome :=
  let query := buildQuery c
  match searchInElasticsearch env query with
  | (none, calls) => ⟨[⟨500, some (errorBody "Error executing search query")⟩], calls⟩
  | (some res, calls) =>
    match res.readAll with
    | none => ⟨[⟨500, some (errorBody "Failed to read search response")⟩], calls⟩
    | some body =>
      match unmarshalBody env body with
      | none => ⟨[⟨500, some (errorBody "Failed to parse search response")⟩], calls⟩
      | some respi => ⟨[⟨200, encodeResponse respi⟩], calls⟩

/-- The array at `hits.hits` of a document; empty when there is none. -/
def hitList (doc : JVal) : List JVal :=
  match (doc.member "hits").bind (JVal.member "hits") with
  | some (JVal.arr xs) => xs
  | _ => []

/-- The JSON member names of `LogData`, in declaration order. -/
def logDataKeys : List String :=
  ["level", "message", "resourceId", "timestamp", "traceId", "spanId", "commit", "metadata"]

/-! ## Concrete inputs -/

/-- A log record. -/
def sampleLog : LogData :=
  { Level := "error", Message := "Failed to connect to DB", ResourceId := "server-1234",
    Timestamp := ⟨some "2023-09-15T08:00:00Z"⟩, TraceId := "abc-xyz-123", SpanId := "span-456",
    Commit := "5e5342f", Metadata := some [("parentResourceId", "server-0987")] }

/-- A second log record. In the environments below the serialization of a record is
abbreviated to its message text. -/
def sampleLog2 : LogData :=
  { Level := "info", Message := "Connection restored", ResourceId := "server-1234",
    Timestamp := ⟨some "2023-09-15T08:05:00Z"⟩, TraceId := "abc-xyz-124", SpanId := "span-457",
    Commit := "5e5342f", Metadata := none }

/-- Two records are parsed; serialization fails for the second one (the record of level
`info`). Every write is accepted. -/
def envSecondUnserializable : IngestEnv :=
  { getClient := true
    bindJSON := Except.ok [sampleLog, sampleLog2]
    marshal := fun d => if d.Level = "info" then none else some d.Message
    newUUID := fun n => if n = 0 then "id-0" else "id-1"
    indexDo := fun _ _ => DoResult.response false }

/-- The request body is the JSON text `null`, which is not a JSON array: binding it to the
record slice is no error and leaves the slice empty. -/
def envNullBody : IngestEnv :=
  { getClient := true
    bindJSON :=
      bindDocument (fun _ => Except.error "json: cannot unmarshal into LogData")
        "json: cannot unmarshal into []LogData" JVal.null
    marshal := fun d => some d.Message
    newUUID := fun n => if n = 0 then "id-0" else "id-1"
    indexDo := fun _ _ => DoResult.response false }

/-- The request body is cut short, so that binding it fails. -/
def envBadBody : IngestEnv :=
  { getClient := true
    bindJSON := Except.error "unexpected EOF"
    marshal := fun d => some d.Message
    newUUID := fun n => if n = 0 then "id-0" else "id-1"
    indexDo := fun _ _ => DoResult.response false }

/-- Two records are parsed, both serialize, both writes are accepted. -/
def envAllGood : IngestEnv :=
  { getClient := true
    bindJSON := Except.ok [sampleLog, sampleLog2]
    marshal := fun d => some d.Message
    newUUID := fun n => if n = 0 then "id-0" else "id-1"
    indexDo := fun _ _ => DoResult.response false }

/-- Two records are parsed and serialize; the engine accepts the first write and answers
the second one with an error. -/
def envSecondRejected : IngestEnv :=
  { getClient := true
    bindJSON := Except.ok [sampleLog, sampleLog2]
    marshal := fun d => some d.Message
    newUUID := fun n => if n = 0 then "id-0" else "id-1"
    indexDo := fun n _ => if n = 0 then DoResult.response false else DoResult.response true }

/-- A search response of the engine holding one hit: the envelope carries the time taken and
the total-hit count, the hit carries its index, identifier and score, and the stored document
carries a member `host` besides the members of `LogData`. -/
def engineDoc : JVal :=
  JVal.obj
    [("took", JVal.num "3"),
     ("timed_out", JVal.bool false),
     ("hits", JVal.obj
        [("total", JVal.obj [("value", JVal.num "1"), ("relation", JVal.str "eq")]),
         ("max_score", JVal.num "1.5"),
         ("hits", JVal.arr
            [JVal.obj
              [("_index", JVal.str "logs"),
               ("_id", JVal.str "7d0d3bd4"),
               ("_score", JVal.num "1.5"),
               ("_source", JVal.obj
                  [("level", JVal.str "error"),
                   ("message", JVal.str "Failed to connect to DB"),
                   ("resourceId", JVal.str "server-1234"),
                   ("timestamp", JVal.str "2023-09-15T08:00:00Z"),
                   ("traceId", JVal.str "abc-xyz-123"),
                   ("spanId", JVal.str "span-456"),
                   ("commit", JVal.str "5e5342f"),
                   ("metadata", JVal.obj [("parentResourceId", JVal.str "server-0987")]),
                   ("host", JVal.str "web-1")])]])])]

/-- The `Response` value that decoding `engineDoc` produces. -/
def engineDocDecoded : Response :=
  ⟨⟨some [⟨sampleLog⟩]⟩⟩

/-- The JSON encoding of `engineDocDecoded`. -/
def engineDocReencoded : JVal :=
  JVal.obj
    [("hits", JVal.obj
        [("hits", JVal.arr
            [JVal.obj
              [("_source", JVal.obj
                  [("level", JVal.str "error"),
                   ("message", JVal.str "Failed to connect to DB"),
                   ("resourceId", JVal.str "server-1234"),
                   ("timestamp", JVal.str "2023-09-15T08:00:00Z"),
                   ("traceId", JVal.str "abc-xyz-123"),
                   ("spanId", JVal.str "span-456"),
                   ("commit", JVal.str "5e5342f"),
                   ("metadata", JVal.obj [("parentResourceId", JVal.str "server-0987")])])]])])]

/-- A search in which every step succeeds and the engine answers with `engineDoc`. -/
def searchEnvOneHit : SearchEnv :=
  { getClient := true
    encodeQuery := fun _ => some "query"
    search := fun _ _ => SearchResult.response ⟨some (Body.doc engineDoc)⟩
    unmarshal := fun _ => some engineDocDecoded }

/-- Request `?level=error`. -/
def levelErrorContext : Context := ⟨[("level", "error")]⟩

/-- Request `?spanId=span-456&commit=5e5342f`. -/
def spanAndCommitContext : Context :=
  ⟨[("spanId", "span-456"), ("commit", "5e5342f")]⟩

/-- Request with both date bounds and nothing else. -/
def dateRangeContext : Context :=
  ⟨[("startDate", "2023-09-10T00:00:00Z"), ("endDate", "2023-09-15T23:59:59Z")]⟩

/-- Request `?page=2`: none of the eight parameters is supplied. -/
def unrelatedContext : Context := ⟨[("page", "2")]⟩

/-! ## Auxiliary list facts -/

theorem snoc_chain {α : Type} (p1 p2 p3 p4 p5 p6 p7 : Prop)
    [Decidable p1] [Decidable p2] [Decidable p3] [Decidable p4] [Decidable p5] [Decidable p6]
    [Decidable p7] (x1 x2 x3 x4 x5 x6 x7 : α) :
    (let m : List α := []
     let m := if p1 then m ++ [x1] else m
     let m := if p2 then m ++ [x2] else m
     let m := if p3 then m ++ [x3] else m
     let m := if p4 then m ++ [x4] else m
     let m := if p5 then m ++ [x5] else m
     let m := if p6 then m ++ [x6] else m
     let m := if p7 then m ++ [x7] else m
     m) =
    (if p1 then [x1] else []) ++ ((if p2 then [x2] else []) ++ ((if p3 then [x3] else []) ++
      ((if p4 then [x4] else []) ++ ((if p5 then [x5] else []) ++ ((if p6 then [x6] else []) ++
        (if p7 then [x7] else [])))))) := by
  by_cases h1 : p1 <;> by_cases h2 : p2 <;> by_cases h3 : p3 <;> by_cases h4 : p4 <;>
    by_cases h5 : p5 <;> by_cases h6 : p6 <;> by_cases h7 : p7 <;> simp [*]

theorem filter_six {α : Type} (P : α → Prop) [DecidablePred P] (a1 a2 a3 a4 a5 a6 : α) :
    [a1, a2, a3, a4, a5, a6].filter (fun a => decide (P a)) =
      (if P a1 then [a1] else []) ++ ((if P a2 then [a2] else []) ++
        ((if P a3 then [a3] else []) ++ ((if P a4 then [a4] else []) ++
          ((if P a5 then [a5] else []) ++ (if P a6 then [a6] else []))))) := by
  by_cases h1 : P a1 <;> by_cases h2 : P a2 <;> by_cases h3 : P a3 <;> by_cases h4 : P a4 <;>
    by_cases h5 : P a5 <;> by_cases h6 : P a6 <;> simp [List.filter, *]

theorem filter_opt_keep {α : Type} (q : α → Bool) (p : Prop) [Decidable p] (x : α)
    (h : q x = true) : List.filter q (if p then [x] else []) = if p then [x] else [] := by
  split <;> simp [List.filter, h]

theorem filter_opt_drop {α : Type} (q : α → Bool) (p : Prop) [Decidable p] (x : α)
    (h : q x = false) : List.filter q (if p then [x] else []) = [] := by
  split <;> simp [List.filter, h]

theorem length_opt {α : Type} (p : Prop) [Decidable p] (x : α) :
    (if p then [x] else []).length = if p then 1 else 0 := by
  split <;> rfl

theorem mem_opt {α : Type} {p : Prop} [Decidable p] {x y : α}
    (h : y ∈ (if p then [x] else [])) : p ∧ y = x := by
  split at h
  · rename_i hp
    exact ⟨hp, by simpa using h⟩
  · simp at h

theorem forall2_opt_append {α β : Type} (R : α → β → Prop) (p : Prop) [Decidable p]
    (a : α) (b : β) (as : List α) (bs : List β) (hab : p → R a b) (h : List.Forall₂ R as bs) :
    List.Forall₂ R ((if p then [a] else []) ++ as) ((if p then [b] else []) ++ bs) := by
  by_cases hp : p
  · simp only [if_pos hp, List.cons_append, List.nil_append]
    exact List.Forall₂.cons (hab hp) h
  · simpa only [if_neg hp, List.nil_append] using h

/-! ## Facts about the clause recognisers -/

theorem matchParts_match (f v : String) :
    matchParts (JVal.obj [("match", JVal.obj [(f, JVal.str v)])]) = some (f, v) := by
  simp [matchParts]

theorem matchParts_range (f : String) (ms : List (String × JVal)) :
    matchParts (JVal.obj [("range", JVal.obj [(f, JVal.obj ms)])]) = none := by
  simp [matchParts]

theorem rangeField_match (f v : String) :
    rangeField (JVal.obj [("match", JVal.obj [(f, JVal.str v)])]) = none := by
  simp [rangeField]

theorem rangeField_range (f : String) (ms : List (String × JVal)) :
    rangeField (JVal.obj [("range", JVal.obj [(f, JVal.obj ms)])]) = some f := by
  simp [rangeField]

theorem isMatchClause_match (f v : String) :
    isMatchClause (JVal.obj [("match", JVal.obj [(f, JVal.str v)])]) = true := by
  simp [isMatchClause, matchParts_match]

theorem isMatchClause_range (f : String) (ms : List (String × JVal)) :
    isMatchClause (JVal.obj [("range", JVal.obj [(f, JVal.obj ms)])]) = false := by
  simp [isMatchClause, matchParts_range]

theorem isRangeClause_match (f v : String) :
    isRangeClause (JVal.obj [("match", JVal.obj [(f, JVal.str v)])]) = false := by
  simp [isRangeClause, rangeField_match]

theorem isRangeClause_range (f : String) (ms : List (String × JVal)) :
    isRangeClause (JVal.obj [("range", JVal.obj [(f, JVal.obj ms)])]) = true := by
  simp [isRangeClause, rangeField_range]

/-! ## Normal form of the clause list -/

theorem mustOf_buildQuery (c : Context) : mustOf (buildQuery c) = some (mustClauses c) := by
  simp [mustOf, buildQuery, JVal.member, JVal.items?]

theorem mustClauses_eq (c : Context) :
    mustClauses c =
      (if c.Query "level" ≠ "" then
        [JVal.obj [("match", JVal.obj [("level", JVal.str (c.Query "level"))])]] else []) ++
      ((if c.Query "resourceId" ≠ "" then
        [JVal.obj [("match", JVal.obj [("resourceId", JVal.str (c.Query "resourceId"))])]]
        else []) ++
      ((if c.Query "traceId" ≠ "" then
        [JVal.obj [("match", JVal.obj [("traceId", JVal.str (c.Query "traceId"))])]] else []) ++
      ((if c.Query "spanId" ≠ "" then
        [JVal.obj [("match", JVal.obj [("spanId", JVal.str (c.Query "spanId"))])]] else []) ++
      ((if c.Query "commit" ≠ "" then
        [JVal.obj [("match", JVal.obj [("spanId", JVal.str (c.Query "commit"))])]] else []) ++
      ((if c.Query "message" ≠ "" then
        [JVal.obj [("match", JVal.obj [("message", JVal.str (c.Query "message"))])]] else []) ++
      (if c.Query "startDate" ≠ "" ∧ c.Query "endDate" ≠ "" then
        [JVal.obj [("range", JVal.obj [("timestamp",
          JVal.obj [("gte", JVal.str (c.Query "startDate")),
            ("lte", JVal.str (c.Query "endDate"))])])]] else [])))))) := by
  unfold mustClauses
  exact snoc_chain _ _ _ _ _ _ _ _ _ _ _ _ _ _

theorem matchParams_filter (c : Context) :
    matchParams.filter (fun p => decide (c.Query p ≠ "")) =
      (if c.Query "level" ≠ "" then ["level"] else []) ++
      ((if c.Query "resourceId" ≠ "" then ["resourceId"] else []) ++
      ((if c.Query "traceId" ≠ "" then ["traceId"] else []) ++
      ((if c.Query "spanId" ≠ "" then ["spanId"] else []) ++
      ((if c.Query "commit" ≠ "" then ["commit"] else []) ++
      (if c.Query "message" ≠ "" then ["message"] else []))))) :=
  filter_six (fun p => c.Query p ≠ "") _ _ _ _ _ _

theorem mustClauses_filter_match (c : Context) :
    (mustClauses c).filter isMatchClause =
      (if c.Query "level" ≠ "" then
        [JVal.obj [("match", JVal.obj [("level", JVal.str (c.Query "level"))])]] else []) ++
      ((if c.Query "resourceId" ≠ "" then
        [JVal.obj [("match", JVal.obj [("resourceId", JVal.str (c.Query "resourceId"))])]]
        else []) ++
      ((if c.Query "traceId" ≠ "" then
        [JVal.obj [("match", JVal.obj [("traceId", JVal.str (c.Query "traceId"))])]] else []) ++
      ((if c.Query "spanId" ≠ "" then
        [JVal.obj [("match", JVal.obj [("spanId", JVal.str (c.Query "spanId"))])]] else []) ++
      ((if c.Query "commit" ≠ "" then
        [JVal.obj [("match", JVal.obj [("spanId", JVal.str (c.Query "commit"))])]] else []) ++
      (if c.Query "message" ≠ "" then
        [JVal.obj [("match", JVal.obj [("message", JVal.str (c.Query "message"))])]]
        else []))))) := by
  rw [mustClauses_eq]
  simp only [List.filter_append]
  rw [filter_opt_keep _ _ _ (isMatchClause_match _ _), filter_opt_keep _ _ _ (isMatchClause_match _ _),
    filter_opt_keep _ _ _ (isMatchClause_match _ _), filter_opt_keep _ _ _ (isMatchClause_match _ _),
    filter_opt_keep _ _ _ (isMatchClause_match _ _), filter_opt_keep _ _ _ (isMatchClause_match _ _),
    filter_opt_drop _ _ _ (isMatchClause_range _ _), List.append_nil]

theorem mustClauses_filter_range (c : Context) :
    (mustClauses c).filter isRangeClause =
      (if c.Query "startDate" ≠ "" ∧ c.Query "endDate" ≠ "" then
        [JVal.obj [("range", JVal.obj [("timestamp",
          JVal.obj [("gte", JVal.str (c.Query "startDate")),
            ("lte", JVal.str (c.Query "endDate"))])])]] else []) := by
  rw [mustClauses_eq]
  simp only [List.filter_append]
  rw [filter_opt_drop _ _ _ (isRangeClause_match _ _), filter_opt_drop _ _ _ (isRangeClause_match _ _),
    filter_opt_drop _ _ _ (isRangeClause_match _ _), filter_opt_drop _ _ _ (isRangeClause_match _ _),
    filter_opt_drop _ _ _ (isRangeClause_match _ _), filter_opt_drop _ _ _ (isRangeClause_match _ _),
    filter_opt_keep _ _ _ (isRangeClause_range _ _)]
  simp only [List.nil_append]

/-- Every clause of the list comes from one of the seven blocks of `buildQuery`. -/
theorem mem_mustClauses {c : Context} {cl : JVal} (h : cl ∈ mustClauses c) :
    (∃ f v, cl = JVal.obj [("match", JVal.obj [(f, JVal.str v)])] ∧ v ≠ "" ∧
      ((f = "level" ∧ v = c.Query "level") ∨ (f = "resourceId" ∧ v = c.Query "resourceId") ∨
       (f = "traceId" ∧ v = c.Query "traceId") ∨ (f = "spanId" ∧ v = c.Query "spanId") ∨
       (f = "spanId" ∧ v = c.Query "commit") ∨ (f = "message" ∧ v = c.Query "message"))) ∨
    (c.Query "startDate" ≠ "" ∧ c.Query "endDate" ≠ "" ∧
      cl = JVal.obj [("range", JVal.obj [("timestamp",
          JVal.obj [("gte", JVal.str (c.Query "startDate")),
            ("lte", JVal.str (c.Query "endDate"))])])]) := by
  rw [mustClauses_eq] at h
  simp only [List.mem_append] at h
  rcases h with h | h | h | h | h | h | h
  · obtain ⟨hp, rfl⟩ := mem_opt h
    exact Or.inl ⟨_, _, rfl, hp, Or.inl ⟨rfl, rfl⟩⟩
  · obtain ⟨hp, rfl⟩ := mem_opt h
    exact Or.inl ⟨_, _, rfl, hp, Or.inr (Or.inl ⟨rfl, rfl⟩)⟩
  · obtain ⟨hp, rfl⟩ := mem_opt h
    exact Or.inl ⟨_, _, rfl, hp, Or.inr (Or.inr (Or.inl ⟨rfl, rfl⟩))⟩
  · obtain ⟨hp, rfl⟩ := mem_opt h
    exact Or.inl ⟨_, _, rfl, hp, Or.inr (Or.inr (Or.inr (Or.inl ⟨rfl, rfl⟩)))⟩
  · obtain ⟨hp, rfl⟩ := mem_opt h
    exact Or.inl ⟨_, _, rfl, hp, Or.inr (Or.inr (Or.inr (Or.inr (Or.inl ⟨rfl, rfl⟩))))⟩
  · obtain ⟨hp, rfl⟩ := mem_opt h
    exact Or.inl ⟨_, _, rfl, hp, Or.inr (Or.inr (Or.inr (Or.inr (Or.inr ⟨rfl, rfl⟩))))⟩
  · obtain ⟨hp, rfl⟩ := mem_opt h
    exact Or.inr ⟨hp.1, hp.2, rfl⟩

theorem mustClauses_length (c : Context) :
    (mustClauses c).length =
      (matchParams.filter (fun p => decide (c.Query p ≠ ""))).length +
        (if c.Query "startDate" ≠ "" ∧ c.Query "endDate" ≠ "" then 1 else 0) := by
  rw [mustClauses_eq, matchParams_filter]
  simp only [List.length_append, length_opt]
  omega

theorem mustClauses_filter_spanId (c : Context) :
    (mustClauses c).filter (isMatchOn "spanId") =
      (if c.Query "spanId" ≠ "" then
        [JVal.obj [("match", JVal.obj [("spanId", JVal.str (c.Query "spanId"))])]] else []) ++
      (if c.Query "commit" ≠ "" then
        [JVal.obj [("match", JVal.obj [("spanId", JVal.str (c.Query "commit"))])]] else []) := by
  have hyes : ∀ v : String,
      isMatchOn "spanId" (JVal.obj [("match", JVal.obj [("spanId", JVal.str v)])]) = true := by
    intro v
    simp [isMatchOn, matchParts_match]
  have hno : ∀ f v : String, f ≠ "spanId" →
      isMatchOn "spanId" (JVal.obj [("match", JVal.obj [(f, JVal.str v)])]) = false := by
    intro f v hf
    simp [isMatchOn, matchParts_match, hf]
  have hrange : ∀ (f : String) (ms : List (String × JVal)),
      isMatchOn "spanId" (JVal.obj [("range", JVal.obj [(f, JVal.obj ms)])]) = false := by
    intro f ms
    simp [isMatchOn, matchParts_range]
  rw [mustClauses_eq]
  simp only [List.filter_append]
  rw [filter_opt_drop _ _ _ (hno "level" _ (by decide)),
    filter_opt_drop _ _ _ (hno "resourceId" _ (by decide)),
    filter_opt_drop _ _ _ (hno "traceId" _ (by decide)),
    filter_opt_keep _ _ _ (hyes _), filter_opt_keep _ _ _ (hyes _),
    filter_opt_drop _ _ _ (hno "message" _ (by decide)),
    filter_opt_drop _ _ _ (hrange _ _)]
  simp only [List.nil_append, List.append_nil]

/-! ## Ingest loop: auxiliary facts -/

theorem writeResult_ok_marshal {env : IngestEnv} {n : Nat} {d : LogData}
    (h : writeResult env n d = WriteResult.ok) :
    ∃ b, env.marshal d = some b ∧ env.indexDo n ⟨"logs", env.newUUID n, b⟩ = DoResult.response false := by
  unfold writeResult at h
  cases hm : env.marshal d with
  | none => simp [hm] at h
  | some b =>
    refine ⟨b, rfl, ?_⟩
    simp only [hm] at h
    cases hd : env.indexDo n ⟨"logs", env.newUUID n, b⟩ with
    | transportError => simp [hd] at h
    | response e =>
      cases e with
      | true => simp [hd] at h
      | false => rfl

theorem writesFrom_append (env : IngestEnv) (l1 l2 : List LogData) (n : Nat) :
    writesFrom env n (l1 ++ l2) = writesFrom env n l1 ++ writesFrom env (n + l1.length) l2 := by
  induction l1 generalizing n with
  | nil => simp [writesFrom]
  | cons d rest ih =>
    have hn : n + 1 + rest.length = n + (rest.length + 1) := by omega
    have hstep : writesFrom env n (d :: (rest ++ l2)) =
        (match env.marshal d with
          | none => []
          | some jsonData => [EngineCall.index ⟨"logs", env.newUUID n, jsonData⟩]) ++
          writesFrom env (n + 1) (rest ++ l2) := rfl
    rw [List.cons_append, hstep, ih (n + 1), hn]
    simp only [writesFrom, List.length_cons, List.append_assoc]

theorem ingestLoop_ok (env : IngestEnv) (logs : List LogData) (n : Nat) (calls : List EngineCall)
    (h : ∀ i (hi : i < logs.length), writeResult env (n + i) logs[i] = WriteResult.ok) :
    ingestLoop env logs n calls = (none, calls ++ writesFrom env n logs) := by
  induction logs generalizing n calls with
  | nil => simp [ingestLoop, writesFrom]
  | cons d rest ih =>
    obtain ⟨b, hb, hdo⟩ := writeResult_ok_marshal (h 0 (by simp))
    simp only [Nat.add_zero, List.getElem_cons_zero] at hb hdo
    have hrest : ∀ i (hi : i < rest.length),
        writeResult env (n + 1 + i) rest[i] = WriteResult.ok := by
      intro i hi
      have := h (i + 1) (by simp; omega)
      simpa [Nat.add_assoc, Nat.add_comm 1 i] using this
    simp only [ingestLoop, hb, hdo, writesFrom]
    rw [ih (n + 1) _ hrest]
    simp

theorem writesFrom_ok (env : IngestEnv) (l : List LogData) (n : Nat)
    (h : ∀ i (hi : i < l.length), ∃ b, env.marshal l[i] = some b) :
    (writesFrom env n l).length = l.length ∧
    ∀ i (hi : i < l.length), ∃ b, env.marshal l[i] = some b ∧
      (writesFrom env n l)[i]? = some (EngineCall.index ⟨"logs", env.newUUID (n + i), b⟩) := by
  induction l generalizing n with
  | nil => simp [writesFrom]
  | cons d rest ih =>
    obtain ⟨b, hb⟩ := h 0 (by simp)
    simp only [List.getElem_cons_zero] at hb
    have hrest : ∀ i (hi : i < rest.length), ∃ b, env.marshal rest[i] = some b := by
      intro i hi
      simpa using h (i + 1) (by simp; omega)
    obtain ⟨hlen, hget⟩ := ih (n + 1) hrest
    refine ⟨by simp [writesFrom, hb, hlen], ?_⟩
    intro i hi
    cases i with
    | zero => exact ⟨b, by simpa using hb, by simp [writesFrom, hb]⟩
    | succ j =>
      obtain ⟨b2, hb2, hg⟩ := hget j (by simpa using hi)
      refine ⟨b2, by simpa using hb2, ?_⟩
      have : n + 1 + j = n + (j + 1) := by omega
      simp [writesFrom, hb, hg, this]

theorem ingestLoop_fail (env : IngestEnv) (logs : List LogData) (k n : Nat)
    (calls : List EngineCall) (hk : k < logs.length)
    (hok : ∀ i (hi : i < logs.length), i < k → writeResult env (n + i) logs[i] = WriteResult.ok)
    (hfail : writeResult env (n + k) logs[k] ≠ WriteResult.ok) :
    ∃ msg, ingestLoop env logs n calls =
      (some ⟨500, some (errorBody msg)⟩, calls ++ writesFrom env n (logs.take (k + 1))) := by
  induction logs generalizing k n calls with
  | nil => simp at hk
  | cons d rest ih =>
    cases k with
    | zero =>
      simp only [Nat.add_zero, List.getElem_cons_zero] at hfail
      unfold writeResult at hfail
      cases hm : env.marshal d with
      | none =>
        exact ⟨"Error marshaling log data", by simp [ingestLoop, hm, writesFrom]⟩
      | some b =>
        simp only [hm] at hfail
        cases hd : env.indexDo n ⟨"logs", env.newUUID n, b⟩ with
        | transportError =>
          exact ⟨"Failed to send request to Elasticsearch",
            by simp [ingestLoop, hm, hd, writesFrom]⟩
        | response e =>
          cases e with
          | true =>
            exact ⟨"Failed to index document with ID=" ++ env.newUUID n,
              by simp [ingestLoop, hm, hd, writesFrom]⟩
          | false => simp [hd] at hfail
    | succ j =>
      obtain ⟨b, hb, hdo⟩ := writeResult_ok_marshal (hok 0 (by simp) (by omega))
      simp only [Nat.add_zero, List.getElem_cons_zero] at hb hdo
      have hj : j < rest.length := by simpa using hk
      have hok2 : ∀ i (hi : i < rest.length), i < j →
          writeResult env (n + 1 + i) rest[i] = WriteResult.ok := by
        intro i hi hij
        have := hok (i + 1) (by simp; omega) (by omega)
        simpa [Nat.add_assoc, Nat.add_comm 1 i] using this
      have hfail2 : writeResult env (n + 1 + j) rest[j] ≠ WriteResult.ok := by
        simpa [Nat.add_assoc, Nat.add_comm 1 j] using hfail
      obtain ⟨msg, hmsg⟩ := ih j (n + 1) (calls ++ [EngineCall.index ⟨"logs", env.newUUID n, b⟩])
        hj hok2 hfail2
      refine ⟨msg, ?_⟩
      simp only [ingestLoop, hb, hdo, hmsg, List.take_succ_cons, writesFrom, List.append_assoc]

theorem writesFrom_ids (env : IngestEnv) (l : List LogData) (n : Nat)
    (h : ∀ i (hi : i < l.length), ∃ b, env.marshal l[i] = some b) :
    (writesFrom env n l).filterMap EngineCall.documentID? =
      (List.range' n l.length).map env.newUUID := by
  induction l generalizing n with
  | nil => simp [writesFrom]
  | cons d rest ih =>
    obtain ⟨b, hb⟩ := h 0 (by simp)
    simp only [List.getElem_cons_zero] at hb
    have hrest : ∀ i (hi : i < rest.length), ∃ b, env.marshal rest[i] = some b := by
      intro i hi
      simpa using h (i + 1) (by simp; omega)
    simp [writesFrom, hb, ih (n + 1) hrest, EngineCall.documentID?, List.range'_succ]

theorem LogIngestHandler_ok (env : IngestEnv) (logs : List LogData)
    (hc : env.getClient = true) (hb : env.bindJSON = Except.ok logs)
    (hok : ∀ i (hi : i < logs.length), writeResult env i logs[i] = WriteResult.ok) :
    LogIngestHandler env =
      ⟨[⟨200, some (JVal.obj [("message", JVal.str "Log ingested successfully")])⟩],
        writesFrom env 0 logs⟩ := by
  have h := ingestLoop_ok env logs 0 [] (by simpa using hok)
  simp [LogIngestHandler, hc, hb, h]

theorem LogIngestHandler_fail (env : IngestEnv) (logs : List LogData) (k : Nat)
    (hc : env.getClient = true) (hb : env.bindJSON = Except.ok logs) (hk : k < logs.length)
    (hok : ∀ i (hi : i < logs.length), i < k → writeResult env i logs[i] = WriteResult.ok)
    (hfail : writeResult env k logs[k] ≠ WriteResult.ok) :
    ∃ msg, LogIngestHandler env =
      ⟨[⟨500, some (errorBody msg)⟩], writesFrom env 0 (logs.take (k + 1))⟩ := by
  obtain ⟨msg, h⟩ := ingestLoop_fail env logs k 0 [] hk (by simpa using hok) (by simpa using hfail)
  exact ⟨msg, by simp [LogIngestHandler, hc, hb, h]⟩

theorem writesFrom_take_succ (env : IngestEnv) (logs : List LogData) (k : Nat)
    (hk : k < logs.length) :
    writesFrom env 0 (logs.take (k + 1)) =
      writesFrom env 0 (logs.take k) ++
        (match env.marshal logs[k] with
          | none => []
          | some jsonData => [EngineCall.index ⟨"logs", env.newUUID k, jsonData⟩]) := by
  rw [← List.take_concat_get' logs k hk, writesFrom_append]
  have hlen : (List.take k logs).length = k := by
    rw [List.length_take]; omega
  simp only [Nat.zero_add, hlen, writesFrom, List.append_nil]

/-! ## Search handler: auxiliary facts -/

theorem encodeHit_shape {h : Hit} {x : JVal} (hx : encodeHit h = some x) :
    x.keys = ["_source"] ∧ (x.member "_source").map JVal.keys = some logDataKeys := by
  unfold encodeHit at hx
  cases hs : encodeLogData h.Source with
  | none => simp [hs] at hx
  | some source =>
    simp only [hs, Option.some.injEq] at hx
    subst hx
    unfold encodeLogData at hs
    cases ht : h.Source.Timestamp.marshalJSON with
    | none => simp [ht] at hs
    | some t =>
      simp only [ht, Option.some.injEq] at hs
      subst hs
      simp [JVal.keys, JVal.member, logDataKeys]

theorem encodeHitList_mem {l : List Hit} {xs : List JVal} (hl : encodeHitList l = some xs) :
    ∀ x ∈ xs, ∃ h ∈ l, encodeHit h = some x := by
  induction l generalizing xs with
  | nil =>
    simp only [encodeHitList, Option.some.injEq] at hl
    subst hl
    intro x hx
    simp at hx
  | cons h rest ih =>
    unfold encodeHitList at hl
    cases hh : encodeHit h with
    | none => simp [hh] at hl
    | some y =>
      cases hr : encodeHitList rest with
      | none => simp [hh, hr] at hl
      | some ys =>
        simp only [hh, hr, Option.some.injEq] at hl
        subst hl
        intro x hx
        rcases List.mem_cons.mp hx with rfl | hx2
        · exact ⟨h, List.mem_cons_self _ _, hh⟩
        · obtain ⟨h2, hm, he⟩ := ih hr x hx2
          exact ⟨h2, List.mem_cons_of_mem _ hm, he⟩

theorem encodeResponse_shape {r : Response} {b : JVal} (hb : encodeResponse r = some b) :
    b.keys = ["hits"] ∧ (b.member "hits").map JVal.keys = some ["hits"] ∧
      encodeHitList (r.Hits.Hits.getD []) = some (hitList b) := by
  unfold encodeResponse at hb
  cases hh : encodeHits r.Hits with
  | none => simp [hh] at hb
  | some hits =>
    simp only [hh, Option.some.injEq] at hb
    subst hb
    unfold encodeHits at hh
    cases hl : r.Hits.Hits with
    | none =>
      simp only [hl, Option.some.injEq] at hh
      subst hh
      simp [JVal.keys, JVal.member, hitList, encodeHitList]
    | some l =>
      cases he : encodeHitList l with
      | none => simp [hl, he] at hh
      | some xs =>
        simp only [hl, he, Option.some.injEq] at hh
        subst hh
        simp [JVal.keys, JVal.member, hitList, he]

/-! ## Query builder: the claims -/

/-- C1. For every request context, the document returned by `buildQuery` is exactly
`{"query": {"bool": {"must": must}}}`, where the equality clauses of `must` correspond one to one,
in order, to the non-empty parameters among level, resourceId, traceId, spanId, commit, message,
each clause carrying its parameter's value unchanged; the range clauses of `must` are the single
clause on `timestamp` when both date bounds are non-empty and none otherwise; every clause is of
one of these two kinds; and the number of clauses is the number of non-empty parameters among the
six plus one when both date bounds are non-empty. -/
theorem buildQuery_clauses_exact (c : Context) :
    ∃ must : List JVal,
      buildQuery c =
        JVal.obj [("query", JVal.obj [("bool", JVal.obj [("must", JVal.arr must)])])] ∧
      mustOf (buildQuery c) = some must ∧
      List.Forall₂
        (fun p cl => ∃ field, cl = JVal.obj [("match", JVal.obj [(field, JVal.str (c.Query p))])])
        (matchParams.filter (fun p => decide (c.Query p ≠ ""))) (must.filter isMatchClause) ∧
      must.filter isRangeClause =
        (if c.Query "startDate" ≠ "" ∧ c.Query "endDate" ≠ "" then
          [JVal.obj [("range", JVal.obj [("timestamp",
            JVal.obj [("gte", JVal.str (c.Query "startDate")),
              ("lte", JVal.str (c.Query "endDate"))])])]]
        else []) ∧
      (∀ cl ∈ must, isMatchClause cl = true ∨ isRangeClause cl = true) ∧
      must.length =
        (matchParams.filter (fun p => decide (c.Query p ≠ ""))).length +
          (if c.Query "startDate" ≠ "" ∧ c.Query "endDate" ≠ "" then 1 else 0) := by
  refine ⟨mustClauses c, rfl, mustOf_buildQuery c, ?_, mustClauses_filter_range c, ?_,
    mustClauses_length c⟩
  · rw [mustClauses_filter_match, matchParams_filter]
    refine forall2_opt_append _ _ _ _ _ _ (fun _ => ⟨_, rfl⟩) ?_
    refine forall2_opt_append _ _ _ _ _ _ (fun _ => ⟨_, rfl⟩) ?_
    refine forall2_opt_append _ _ _ _ _ _ (fun _ => ⟨_, rfl⟩) ?_
    refine forall2_opt_append _ _ _ _ _ _ (fun _ => ⟨_, rfl⟩) ?_
    refine forall2_opt_append _ _ _ _ _ _ (fun _ => ⟨_, rfl⟩) ?_
    have h := forall2_opt_append
      (fun p cl => ∃ field, cl = JVal.obj [("match", JVal.obj [(field, JVal.str (c.Query p))])])
      (c.Query "message" ≠ "") "message"
      (JVal.obj [("match", JVal.obj [("message", JVal.str (c.Query "message"))])]) [] []
      (fun _ => ⟨_, rfl⟩) List.Forall₂.nil
    simpa only [List.append_nil] using h
  · intro cl hcl
    rcases mem_mustClauses hcl with ⟨f, v, rfl, _, _⟩ | ⟨_, _, rfl⟩
    · exact Or.inl (isMatchClause_match _ _)
    · exact Or.inr (isRangeClause_range _ _)

/-- C2. For every parameter `p` among level, resourceId, traceId, spanId, message and every
non-empty `v`: when `p = v` is the only non-empty one of the eight query parameters, the `must`
list built by `buildQuery` is exactly the one clause `{"match": {p: v}}`. -/
theorem buildQuery_single_parameter (c : Context) (p v : String)
    (hp : p ∈ ["level", "resourceId", "traceId", "spanId", "message"])
    (hv : v ≠ "") (hpv : c.Query p = v)
    (hothers : ∀ q ∈ queryParamNames, q ≠ p → c.Query q = "") :
    mustOf (buildQuery c) = some [JVal.obj [("match", JVal.obj [(p, JVal.str v)])]] := by
  have hq : ∀ q, q ∈ queryParamNames → q ≠ p → ¬ (c.Query q ≠ "") := by
    intro q hq hne
    simp [hothers q hq hne]
  have hd : ∀ s e : String, (s ≠ p) → c.Query s = "" → ¬ (c.Query s ≠ "" ∧ c.Query e ≠ "") := by
    intro s e _ hs h
    exact h.1 hs
  rw [mustOf_buildQuery, mustClauses_eq]
  subst hpv
  simp only [List.mem_cons, List.mem_singleton, List.not_mem_nil, or_false] at hp
  rcases hp with rfl | rfl | rfl | rfl | rfl
  · rw [if_pos hv, if_neg (hq "resourceId" (by decide) (by decide)),
      if_neg (hq "traceId" (by decide) (by decide)), if_neg (hq "spanId" (by decide) (by decide)),
      if_neg (hq "commit" (by decide) (by decide)), if_neg (hq "message" (by decide) (by decide)),
      if_neg (hd "startDate" "endDate" (by decide)
        (hothers "startDate" (by decide) (by decide)))]
    rfl
  · rw [if_pos hv, if_neg (hq "level" (by decide) (by decide)),
      if_neg (hq "traceId" (by decide) (by decide)), if_neg (hq "spanId" (by decide) (by decide)),
      if_neg (hq "commit" (by decide) (by decide)), if_neg (hq "message" (by decide) (by decide)),
      if_neg (hd "startDate" "endDate" (by decide)
        (hothers "startDate" (by decide) (by decide)))]
    rfl
  · rw [if_pos hv, if_neg (hq "level" (by decide) (by decide)),
      if_neg (hq "resourceId" (by decide) (by decide)),
      if_neg (hq "spanId" (by decide) (by decide)),
      if_neg (hq "commit" (by decide) (by decide)), if_neg (hq "message" (by decide) (by decide)),
      if_neg (hd "startDate" "endDate" (by decide)
        (hothers "startDate" (by decide) (by decide)))]
    rfl
  · rw [if_pos hv, if_neg (hq "level" (by decide) (by decide)),
      if_neg (hq "resourceId" (by decide) (by decide)),
      if_neg (hq "traceId" (by decide) (by decide)),
      if_neg (hq "commit" (by decide) (by decide)), if_neg (hq "message" (by decide) (by decide)),
      if_neg (hd "startDate" "endDate" (by decide)
        (hothers "startDate" (by decide) (by decide)))]
    rfl
  · rw [if_pos hv, if_neg (hq "level" (by decide) (by decide)),
      if_neg (hq "resourceId" (by decide) (by decide)),
      if_neg (hq "traceId" (by decide) (by decide)),
      if_neg (hq "spanId" (by decide) (by decide)),
      if_neg (hq "commit" (by decide) (by decide)),
      if_neg (hd "startDate" "endDate" (by decide)
        (hothers "startDate" (by decide) (by decide)))]
    rfl

/-- C2 at the request `?level=error`. -/
theorem buildQuery_single_parameter_witness :
    mustOf (buildQuery levelErrorContext) =
      some [JVal.obj [("match", JVal.obj [("level", JVal.str "error")])]] :=
  buildQuery_single_parameter levelErrorContext "level" "error" (by decide) (by decide)
    (by decide) (by decide)

/-- C3. For every non-empty `v`, a request with `commit = v` gets the clause
`{"match": {"spanId": v}}` in its `must` list; no request at all gets a clause on a field named
`commit`; the equality clauses on `spanId` are the one for the `spanId` parameter (when it is
non-empty) followed by the one for `commit`, so there are two of them when both are supplied. -/
theorem buildQuery_commit_targets_spanId (c : Context) (v : String)
    (hv : v ≠ "") (hc : c.Query "commit" = v) :
    ∃ must : List JVal,
      mustOf (buildQuery c) = some must ∧
      JVal.obj [("match", JVal.obj [("spanId", JVal.str v)])] ∈ must ∧
      (∀ (c2 : Context) (must2 : List JVal), mustOf (buildQuery c2) = some must2 →
        ∀ cl ∈ must2, clauseField cl ≠ some "commit") ∧
      must.filter (isMatchOn "spanId") =
        (if c.Query "spanId" ≠ "" then
          [JVal.obj [("match", JVal.obj [("spanId", JVal.str (c.Query "spanId"))])]] else []) ++
        [JVal.obj [("match", JVal.obj [("spanId", JVal.str v)])]] ∧
      (c.Query "spanId" ≠ "" → (must.filter (isMatchOn "spanId")).length = 2) := by
  have hfield : ∀ (c2 : Context) (cl : JVal), cl ∈ mustClauses c2 →
      clauseField cl ≠ some "commit" := by
    intro c2 cl hcl
    rcases mem_mustClauses hcl with ⟨f, w, rfl, _, hf⟩ | ⟨_, _, rfl⟩
    · have hf2 : f ≠ "commit" := by
        rcases hf with ⟨rfl, _⟩ | ⟨rfl, _⟩ | ⟨rfl, _⟩ | ⟨rfl, _⟩ | ⟨rfl, _⟩ | ⟨rfl, _⟩ <;> decide
      simp [clauseField, matchParts_match, hf2]
    · simp [clauseField, matchParts_range, rangeField_range]
  have hcommit : c.Query "commit" ≠ "" := by rw [hc]; exact hv
  have hfilter := mustClauses_filter_spanId c
  rw [if_pos hcommit, hc] at hfilter
  have hfield2 : ∀ (c2 : Context) (must2 : List JVal), mustOf (buildQuery c2) = some must2 →
      ∀ cl ∈ must2, clauseField cl ≠ some "commit" := by
    intro c2 must2 h2 cl hcl
    rw [mustOf_buildQuery] at h2
    cases h2
    exact hfield c2 cl hcl
  refine ⟨mustClauses c, mustOf_buildQuery c, ?_, hfield2, hfilter, ?_⟩
  · have : JVal.obj [("match", JVal.obj [("spanId", JVal.str v)])] ∈
        (mustClauses c).filter (isMatchOn "spanId") := by
      rw [hfilter]; simp
    exact (List.mem_filter.mp this).1
  · intro hs
    rw [hfilter, if_pos hs]
    rfl

/-- C3 at the request `?spanId=span-456&commit=5e5342f`. -/
theorem buildQuery_commit_targets_spanId_witness :
    ∃ must : List JVal,
      mustOf (buildQuery spanAndCommitContext) = some must ∧
      JVal.obj [("match", JVal.obj [("spanId", JVal.str "5e5342f")])] ∈ must ∧
      (must.filter (isMatchOn "spanId")).length = 2 := by
  obtain ⟨must, h1, h2, _, _, h6⟩ :=
    buildQuery_commit_targets_spanId spanAndCommitContext "5e5342f" (by decide) (by decide)
  exact ⟨must, h1, h2, h6 (by decide)⟩

/-- C4. With `s` and `e` the values of `startDate` and `endDate`: the range clauses of the
`must` list built by `buildQuery` are the single clause
`{"range": {"timestamp": {"gte": s, "lte": e}}}` when both `s` and `e` are non-empty, and there
is no range clause otherwise. -/
theorem buildQuery_range_clause (c : Context) (s e : String)
    (hs : c.Query "startDate" = s) (he : c.Query "endDate" = e) :
    ∃ must : List JVal,
      mustOf (buildQuery c) = some must ∧
      must.filter isRangeClause =
        (if s ≠ "" ∧ e ≠ "" then
          [JVal.obj [("range", JVal.obj [("timestamp",
            JVal.obj [("gte", JVal.str s), ("lte", JVal.str e)])])]]
        else []) := by
  subst hs he
  exact ⟨mustClauses c, mustOf_buildQuery c, mustClauses_filter_range c⟩

/-- C4 at a request that supplies both date bounds. -/
theorem buildQuery_range_clause_witness :
    ∃ must : List JVal,
      mustOf (buildQuery dateRangeContext) = some must ∧
      must.filter isRangeClause =
        [JVal.obj [("range", JVal.obj [("timestamp",
          JVal.obj [("gte", JVal.str "2023-09-10T00:00:00Z"),
            ("lte", JVal.str "2023-09-15T23:59:59Z")])])]] := by
  obtain ⟨must, h1, h2⟩ := buildQuery_range_clause dateRangeContext
    "2023-09-10T00:00:00Z" "2023-09-15T23:59:59Z" (by decide) (by decide)
  exact ⟨must, h1, by rw [h2]; rfl⟩

/-- C5. When each of the eight query parameters is empty or absent, `buildQuery` returns
exactly `{"query": {"bool": {"must": []}}}`; the `must` member is the empty array. -/
theorem buildQuery_no_parameters (c : Context)
    (h : ∀ p ∈ queryParamNames, c.Query p = "") :
    buildQuery c =
      JVal.obj [("query", JVal.obj [("bool", JVal.obj [("must", JVal.arr [])])])] ∧
    mustOf (buildQuery c) = some [] := by
  have hq : ∀ q, q ∈ queryParamNames → ¬ (c.Query q ≠ "") := by
    intro q hq
    simp [h q hq]
  have hd : ¬ (c.Query "startDate" ≠ "" ∧ c.Query "endDate" ≠ "") :=
    fun hh => hh.1 (h "startDate" (by decide))
  have hm : mustClauses c = [] := by
    rw [mustClauses_eq, if_neg (hq "level" (by decide)), if_neg (hq "resourceId" (by decide)),
      if_neg (hq "traceId" (by decide)), if_neg (hq "spanId" (by decide)),
      if_neg (hq "commit" (by decide)), if_neg (hq "message" (by decide)), if_neg hd]
    rfl
  refine ⟨?_, by rw [mustOf_buildQuery, hm]⟩
  unfold buildQuery
  rw [hm]

/-- C5 at a request that supplies none of the eight parameters. -/
theorem buildQuery_no_parameters_witness :
    buildQuery unrelatedContext =
      JVal.obj [("query", JVal.obj [("bool", JVal.obj [("must", JVal.arr [])])])] ∧
    mustOf (buildQuery unrelatedContext) = some [] :=
  buildQuery_no_parameters unrelatedContext (by decide)

/-! ## Ingest handler: the claims -/

/-- C6, amended. Client initialization succeeds, the records `logs` are parsed, and record
`k` is the first whose handling fails (serialization error, transport error, or error response).
Then the handler writes exactly one response, of status 500; the engine calls it makes are
index writes only, in input order, the call number `i` being the write of record `i` to index
`logs` with the identifier generated for it; there are `k + 1` of them when record `k` failed
in the transport or by an error response, and `k` of them when record `k` failed to serialize
(no write is sent for it). No call is made for a later record, and no other call follows. -/
theorem ingest_stops_at_first_failure (env : IngestEnv) (logs : List LogData) (k : Nat)
    (hc : env.getClient = true) (hb : env.bindJSON = Except.ok logs) (hk : k < logs.length)
    (hok : ∀ i (hi : i < logs.length), i < k → writeResult env i logs[i] = WriteResult.ok)
    (hfail : writeResult env k logs[k] ≠ WriteResult.ok) :
    ∃ msg,
      (LogIngestHandler env).replies = [⟨500, some (errorBody msg)⟩] ∧
      (LogIngestHandler env).calls.length = (if env.marshal logs[k] = none then k else k + 1) ∧
      ∀ i, i < (LogIngestHandler env).calls.length →
        ∃ (hi : i < logs.length) (b : String), env.marshal logs[i] = some b ∧
          (LogIngestHandler env).calls[i]? =
            some (EngineCall.index ⟨"logs", env.newUUID i, b⟩) := by
  obtain ⟨msg, hmsg⟩ := LogIngestHandler_fail env logs k hc hb hk hok hfail
  refine ⟨msg, by rw [hmsg], ?_⟩
  have hlen : (List.take k logs).length = k := by
    rw [List.length_take]; omega
  have hpre : ∀ i (hi : i < (List.take k logs).length),
      ∃ b, env.marshal (List.take k logs)[i] = some b := by
    intro i hi
    have hik : i < k := by omega
    obtain ⟨b, hb2, _⟩ := writeResult_ok_marshal (hok i (by omega) hik)
    exact ⟨b, by simpa using hb2⟩
  obtain ⟨hwlen, hwget⟩ := writesFrom_ok env (List.take k logs) 0 hpre
  rw [hmsg, writesFrom_take_succ env logs k hk]
  cases hm : env.marshal logs[k] with
  | none =>
    simp only [List.append_nil, hwlen, hlen, if_true]
    refine ⟨trivial, ?_⟩
    intro i hi
    obtain ⟨b, hb2, hg⟩ := hwget i (by omega)
    exact ⟨by omega, b, by simpa using hb2, by simpa using hg⟩
  | some bk =>
    simp only [List.length_append, hwlen, hlen, List.length_singleton, reduceCtorEq, if_false]
    refine ⟨trivial, ?_⟩
    intro i hi
    by_cases hik : i < k
    · obtain ⟨b, hb2, hg⟩ := hwget i (by omega)
      refine ⟨by omega, b, by simpa using hb2, ?_⟩
      rw [List.getElem?_append_left (by omega)]
      simpa using hg
    · have hik2 : i = k := by omega
      subst hik2
      refine ⟨hk, bk, hm, ?_⟩
      rw [List.getElem?_append_right (by omega)]
      simp [hwlen, hlen]

/-- C6 as stated fails when the failure is a serialization error: with two parsed records of
which the second does not serialize, the only engine call is the write of the first record,
not the two writes for positions 0 and 1. -/
theorem ingest_serialization_failure_sends_no_write :
    envSecondUnserializable.getClient = true ∧
    envSecondUnserializable.bindJSON = Except.ok [sampleLog, sampleLog2] ∧
    writeResult envSecondUnserializable 0 sampleLog = WriteResult.ok ∧
    writeResult envSecondUnserializable 1 sampleLog2 = WriteResult.serializationError ∧
    (LogIngestHandler envSecondUnserializable).calls =
      [EngineCall.index ⟨"logs", "id-0", "Failed to connect to DB"⟩] ∧
    (LogIngestHandler envSecondUnserializable).calls.length ≠ 1 + 1 := by
  refine ⟨rfl, rfl, ?_, ?_, ?_, ?_⟩ <;> decide

/-- C6, amended, where the engine rejects the second of two records: two writes, status 500. -/
theorem ingest_stops_at_first_failure_witness :
    ∃ msg,
      (LogIngestHandler envSecondRejected).replies = [⟨500, some (errorBody msg)⟩] ∧
      (LogIngestHandler envSecondRejected).calls.length = 2 := by
  obtain ⟨msg, h1, h2, _⟩ :=
    ingest_stops_at_first_failure envSecondRejected [sampleLog, sampleLog2] 1 rfl rfl
      (by decide)
      (fun i _ hik => by
        have h0 : i = 0 := by omega
        subst h0
        rfl)
      (by decide)
  exact ⟨msg, h1, by rw [h2]; decide⟩

/-- C7. Client initialization succeeds, the records `logs` are parsed, and every record
serializes and is accepted by the engine. Then the handler writes the single response 200 with
the confirmation message; it makes exactly one engine call per record, the call number `i`
being the index write to `logs` of the serialization of record `i` under the identifier
returned by the generator call number `i`; the identifiers are pairwise distinct whenever the
generator outputs are; and for an empty list no call is made. -/
theorem ingest_writes_every_record (env : IngestEnv) (logs : List LogData)
    (hc : env.getClient = true) (hb : env.bindJSON = Except.ok logs)
    (hok : ∀ i (hi : i < logs.length), writeResult env i logs[i] = WriteResult.ok) :
    (LogIngestHandler env).replies =
      [⟨200, some (JVal.obj [("message", JVal.str "Log ingested successfully")])⟩] ∧
    (LogIngestHandler env).calls.length = logs.length ∧
    (∀ i (hi : i < logs.length), ∃ b, env.marshal logs[i] = some b ∧
      (LogIngestHandler env).calls[i]? = some (EngineCall.index ⟨"logs", env.newUUID i, b⟩)) ∧
    ((∀ i j, i < j → j < logs.length → env.newUUID i ≠ env.newUUID j) →
      ((LogIngestHandler env).calls.filterMap EngineCall.documentID?).Nodup) ∧
    (logs = [] → (LogIngestHandler env).calls = []) := by
  have hm : ∀ i (hi : i < logs.length), ∃ b, env.marshal logs[i] = some b := by
    intro i hi
    obtain ⟨b, hb2, _⟩ := writeResult_ok_marshal (hok i hi)
    exact ⟨b, hb2⟩
  obtain ⟨hwlen, hwget⟩ := writesFrom_ok env logs 0 hm
  rw [LogIngestHandler_ok env logs hc hb hok]
  refine ⟨rfl, hwlen, ?_, ?_, ?_⟩
  · intro i hi
    obtain ⟨b, hb2, hg⟩ := hwget i hi
    exact ⟨b, hb2, by simpa using hg⟩
  · intro hdistinct
    simp only
    rw [writesFrom_ids env logs 0 hm]
    refine List.Nodup.map_on ?_ (List.nodup_range' 0 logs.length)
    intro x hx y hy hxy
    simp only [List.mem_range'_1, Nat.zero_add] at hx hy
    by_contra hne
    rcases Nat.lt_or_gt_of_ne hne with h | h
    · exact hdistinct x y h hy.2 hxy
    · exact hdistinct y x h hx.2 hxy.symm
  · intro hnil
    subst hnil
    rfl

/-- C7 for two records that are both written. -/
theorem ingest_writes_every_record_witness :
    (LogIngestHandler envAllGood).replies =
      [⟨200, some (JVal.obj [("message", JVal.str "Log ingested successfully")])⟩] ∧
    (LogIngestHandler envAllGood).calls.length = 2 ∧
    ((LogIngestHandler envAllGood).calls.filterMap EngineCall.documentID?).Nodup := by
  obtain ⟨h1, h2, _, h4, _⟩ :=
    ingest_writes_every_record envAllGood [sampleLog, sampleLog2] rfl rfl
      (fun i hi => by
        have h01 : i = 0 ∨ i = 1 := by
          simp only [List.length_cons, List.length_nil] at hi
          omega
        rcases h01 with h | h <;> subst h <;> rfl)
  refine ⟨h1, h2, h4 ?_⟩
  intro i j hij hj
  have hj1 : j = 1 := by
    simp only [List.length_cons, List.length_nil] at hj
    omega
  have hi0 : i = 0 := by omega
  subst hj1 hi0
  decide

/-- C8, amended. Client initialization having succeeded: whenever binding the request body
fails, the handler makes no engine call and writes the single response 400 with the error text.
That is the case for every body that is a JSON document other than an array and other than
`null`. The body `null`, which is not a JSON array either, binds without error to an empty
record list: the handler makes no engine call and answers 200 with the confirmation message. -/
theorem ingest_malformed_body (env : IngestEnv) (hc : env.getClient = true) :
    (∀ msg, env.bindJSON = Except.error msg →
      (LogIngestHandler env).calls = [] ∧
      (LogIngestHandler env).replies = [⟨400, some (errorBody msg)⟩]) ∧
    (∀ (decodeRecord : JVal → Except String LogData) (typeError : String) (d : JVal),
      env.bindJSON = bindDocument decodeRecord typeError d → d.isArray = false →
      (LogIngestHandler env).calls = [] ∧
      (LogIngestHandler env).replies =
        [if d.isNull = true then
            ⟨200, some (JVal.obj [("message", JVal.str "Log ingested successfully")])⟩
          else ⟨400, some (errorBody typeError)⟩]) := by
  have herr : ∀ msg, env.bindJSON = Except.error msg →
      (LogIngestHandler env).calls = [] ∧
      (LogIngestHandler env).replies = [⟨400, some (errorBody msg)⟩] := by
    intro msg hb
    simp [LogIngestHandler, hc, hb]
  refine ⟨herr, ?_⟩
  intro decodeRecord typeError d hb hd
  cases d with
  | null =>
    have hb2 : env.bindJSON = Except.ok [] := hb
    simp [LogIngestHandler, hc, hb2, ingestLoop, JVal.isNull]
  | arr items => simp [JVal.isArray] at hd
  | bool b => simpa [JVal.isNull] using herr typeError hb
  | num lit => simpa [JVal.isNull] using herr typeError hb
  | str t => simpa [JVal.isNull] using herr typeError hb
  | obj members => simpa [JVal.isNull] using herr typeError hb

/-- C8, amended, at a request whose body is cut short and whose client works. -/
theorem ingest_malformed_body_witness :
    (LogIngestHandler envBadBody).calls = [] ∧
    (LogIngestHandler envBadBody).replies = [⟨400, some (errorBody "unexpected EOF")⟩] :=
  (ingest_malformed_body envBadBody rfl).1 "unexpected EOF" rfl

/-- C8 as stated fails at the body `null`: it is not a JSON array, binding it is no error, and
the handler answers 200, not 400 (no write is issued). -/
theorem ingest_null_body_accepted :
    JVal.isArray JVal.null = false ∧
    envNullBody.getClient = true ∧
    envNullBody.bindJSON =
      bindDocument (fun _ => Except.error "json: cannot unmarshal into LogData")
        "json: cannot unmarshal into []LogData" JVal.null ∧
    envNullBody.bindJSON = Except.ok [] ∧
    (LogIngestHandler envNullBody).replies =
      [⟨200, some (JVal.obj [("message", JVal.str "Log ingested successfully")])⟩] ∧
    (LogIngestHandler envNullBody).replies.map Reply.status ≠ [400] ∧
    (LogIngestHandler envNullBody).calls = [] := by
  refine ⟨rfl, rfl, rfl, rfl, rfl, ?_, rfl⟩
  decide

/-! ## Search handler: the claims -/

/-- C9, amended. When the handler answers 200, the engine body is a JSON document that decoded
into a `Response` value; whenever that value can be encoded again, the body returned is its
encoding: an object whose only member is `hits`, itself an object whose only member is `hits`,
holding one entry per decoded hit, in order, each with the only member `_source` and in it
exactly the eight members of `LogData`. Nothing else of the engine body is returned. -/
theorem search_returns_decoded_hits (env : SearchEnv) (c : Context) (reply : Reply)
    (hmem : reply ∈ (SearchLogsHandler env c).replies) (h200 : reply.status = 200) :
    ∃ buf res d respi,
      env.encodeQuery (buildQuery c) = some buf ∧
      env.search "logs" buf = SearchResult.response res ∧
      res.readAll = some (Body.doc d) ∧
      env.unmarshal d = some respi ∧
      ∀ b, encodeResponse respi = some b →
        reply.body = some b ∧
        b.keys = ["hits"] ∧
        (b.member "hits").map JVal.keys = some ["hits"] ∧
        encodeHitList (respi.Hits.Hits.getD []) = some (hitList b) ∧
        ∀ h ∈ hitList b,
          h.keys = ["_source"] ∧ (h.member "_source").map JVal.keys = some logDataKeys := by
  unfold SearchLogsHandler searchInElasticsearch at hmem
  cases hc : env.getClient with
  | false =>
    simp [hc] at hmem
    rw [hmem] at h200
    simp at h200
  | true =>
    cases he : env.encodeQuery (buildQuery c) with
    | none =>
      simp [hc, he] at hmem
      rw [hmem] at h200
      simp at h200
    | some buf =>
      cases hs : env.search "logs" buf with
      | transportError =>
        simp [hc, he, hs] at hmem
        rw [hmem] at h200
        simp at h200
      | response res =>
        cases hr : res.readAll with
        | none =>
          simp [hc, he, hs, hr] at hmem
          rw [hmem] at h200
          simp at h200
        | some body =>
          cases body with
          | malformed =>
            simp [hc, he, hs, hr, unmarshalBody] at hmem
            rw [hmem] at h200
            simp at h200
          | doc d =>
            cases hu : env.unmarshal d with
            | none =>
              simp [hc, he, hs, hr, unmarshalBody, hu] at hmem
              rw [hmem] at h200
              simp at h200
            | some respi =>
              simp [hc, he, hs, hr, unmarshalBody, hu] at hmem
              subst hmem
              refine ⟨buf, res, d, respi, rfl, hs, hr, hu, ?_⟩
              intro b hb
              obtain ⟨hk, hm, hl⟩ := encodeResponse_shape hb
              refine ⟨hb, hk, hm, hl, ?_⟩
              intro h hh
              obtain ⟨x, _, hx⟩ := encodeHitList_mem hl h hh
              exact encodeHit_shape hx

/-- C9 as stated fails: for an engine body with one hit the handler answers 200 with a body that
differs from the engine body, also inside `hits`; the total-hit count, the hit identifier and the
stored member `host` are present in the engine body and absent from the response. -/
theorem search_drops_engine_fields :
    (SearchLogsHandler searchEnvOneHit levelErrorContext).replies =
      [⟨200, some engineDocReencoded⟩] ∧
    engineDocReencoded ≠ engineDoc ∧
    engineDocReencoded.member "hits" ≠ engineDoc.member "hits" ∧
    (engineDoc.member "hits").bind (JVal.member "total") =
      some (JVal.obj [("value", JVal.num "1"), ("relation", JVal.str "eq")]) ∧
    (engineDocReencoded.member "hits").bind (JVal.member "total") = none ∧
    (hitList engineDoc).map (JVal.member "_id") = [some (JVal.str "7d0d3bd4")] ∧
    (hitList engineDocReencoded).map (JVal.member "_id") = [none] ∧
    (hitList engineDoc).map (fun h => (h.member "_source").bind (JVal.member "host")) =
      [some (JVal.str "web-1")] ∧
    (hitList engineDocReencoded).map (fun h => (h.member "_source").bind (JVal.member "host")) =
      [none] := by
  refine ⟨rfl, ?_, ?_, ?_, ?_, ?_, ?_, ?_, ?_⟩
  · intro h
    have := congrArg JVal.keys h
    simp [engineDocReencoded, engineDoc, JVal.keys] at this
  · intro h
    have := congrArg (fun o => o.map JVal.keys) h
    simp [engineDocReencoded, engineDoc, JVal.keys, JVal.member] at this
  · simp [engineDoc, JVal.member]
  · simp [engineDocReencoded, JVal.member]
  · simp [engineDoc, hitList, JVal.member]
  · simp [engineDocReencoded, hitList, JVal.member]
  · simp [engineDoc, hitList, JVal.member]
  · simp [engineDocReencoded, hitList, JVal.member]

/-- C9, amended, at a search whose engine answer holds one hit. -/
theorem search_returns_decoded_hits_witness :
    engineDocReencoded.keys = ["hits"] ∧
    (engineDocReencoded.member "hits").map JVal.keys = some ["hits"] ∧
    ∀ h ∈ hitList engineDocReencoded,
      h.keys = ["_source"] ∧ (h.member "_source").map JVal.keys = some logDataKeys := by
  obtain ⟨_, _, _, respi, _, _, _, hu, hall⟩ :=
    search_returns_decoded_hits searchEnvOneHit levelErrorContext
      ⟨200, some engineDocReencoded⟩ (List.Mem.head _) rfl
  have hr : respi = engineDocDecoded := by
    have : some engineDocDecoded = some respi := hu
    exact (Option.some.inj this).symm
  subst hr
  obtain ⟨_, hk, hm, _, hs⟩ := hall engineDocReencoded rfl
  exact ⟨hk, hm, hs⟩

/-- C10. For every search request the handler writes exactly one response, of status 200 or
500. The status is 200 exactly when client initialization, query encoding, the search call,
reading the body and decoding the body all succeed. A 500 response carries one of three fixed
error messages and no hits. -/
theorem search_status (env : SearchEnv) (c : Context) :
    ∃ reply,
      (SearchLogsHandler env c).replies = [reply] ∧
      (reply.status = 200 ∨ reply.status = 500) ∧
      (reply.status = 200 ↔
        env.getClient = true ∧
        ∃ buf res body respi,
          env.encodeQuery (buildQuery c) = some buf ∧
          env.search "logs" buf = SearchResult.response res ∧
          res.readAll = some body ∧
          unmarshalBody env body = some respi) ∧
      (reply.status = 500 →
        (reply.body = some (errorBody "Error executing search query") ∨
         reply.body = some (errorBody "Failed to read search response") ∨
         reply.body = some (errorBody "Failed to parse search response")) ∧
        reply.body.bind (JVal.member "hits") = none ∧ reply.body.map hitList = some []) := by
  have herr : ∀ msg : String,
      (some (errorBody msg)).bind (JVal.member "hits") = none ∧
        (some (errorBody msg)).map hitList = some [] := by
    intro msg
    simp [errorBody, JVal.member, hitList]
  cases hc : env.getClient with
  | false =>
    refine ⟨⟨500, some (errorBody "Error executing search query")⟩, ?_, Or.inr rfl, ?_, ?_⟩
    · simp [SearchLogsHandler, searchInElasticsearch, hc]
    · simp
    · exact fun _ => ⟨Or.inl rfl, herr _⟩
  | true =>
    cases he : env.encodeQuery (buildQuery c) with
    | none =>
      refine ⟨⟨500, some (errorBody "Error executing search query")⟩, ?_, Or.inr rfl, ?_, ?_⟩
      · simp [SearchLogsHandler, searchInElasticsearch, hc, he]
      · simp
      · exact fun _ => ⟨Or.inl rfl, herr _⟩
    | some buf =>
      cases hs : env.search "logs" buf with
      | transportError =>
        refine ⟨⟨500, some (errorBody "Error executing search query")⟩, ?_, Or.inr rfl, ?_, ?_⟩
        · simp [SearchLogsHandler, searchInElasticsearch, hc, he, hs]
        · simp [hs]
        · exact fun _ => ⟨Or.inl rfl, herr _⟩
      | response res =>
        cases hr : res.readAll with
        | none =>
          refine ⟨⟨500, some (errorBody "Failed to read search response")⟩, ?_, Or.inr rfl,
            ?_, ?_⟩
          · simp [SearchLogsHandler, searchInElasticsearch, hc, he, hs, hr]
          · simp [hs, hr]
          · exact fun _ => ⟨Or.inr (Or.inl rfl), herr _⟩
        | some body =>
          cases hu : unmarshalBody env body with
          | none =>
            refine ⟨⟨500, some (errorBody "Failed to parse search response")⟩, ?_, Or.inr rfl,
              ?_, ?_⟩
            · simp [SearchLogsHandler, searchInElasticsearch, hc, he, hs, hr, hu]
            · simp [hs, hr, hu]
            · exact fun _ => ⟨Or.inr (Or.inr rfl), herr _⟩
          | some respi =>
            refine ⟨⟨200, encodeResponse respi⟩, ?_, Or.inl rfl, ?_, ?_⟩
            · simp [SearchLogsHandler, searchInElasticsearch, hc, he, hs, hr, hu]
            · simp [hs, hr, hu]
            · intro h
              simp at h

end LogIngestor
